import Mathlib

/-!
Verification of the rotation core of `aws_key_rotate` (src/aws_key_rotate/cli.py),
shallowly embedded in Lean 4.

The embedding follows the Python source:
* the local credential store is a `configparser`-style structure `Config`
  (a `DEFAULT` key/value section plus named sections, insertion-ordered);
* `read_profile_credentials` / `update_credentials_file` are the store
  operations (`configparser` lookup falls back from a named section to the
  `DEFAULT` section; `config[sec][k] = v` replaces the first matching key in
  place or appends);
* the retirement selector `get_recommended_key_to_delete` works on IAM
  access-key metadata; Python's `min(xs, key=...)` keeps the first element
  attaining the minimum, which is modelled by `foldMinByDate`;
* the interactive run of `main` is modelled as the event trace `mainTrace`
  of its provider/store side effects on the success path (a provider or
  store failure makes the program exit, truncating the trace).
-/

/-- Key/value pairs of one `configparser` section, in file/insertion order. -/
abbrev Pairs := List (String × String)

/-- First-match lookup, as `configparser`'s per-section option dictionary. -/
def lookupPairs : Pairs → String → Option String
  | [], _ => none
  | (k, v) :: rest, key => if k = key then some v else lookupPairs rest key

/-- `section[key] = value`: replace the first binding of `key` in place,
or append a new binding (dict insertion-order semantics). -/
def setPair : Pairs → String → String → Pairs
  | [], key, v => [(key, v)]
  | (k, w) :: rest, key, v =>
      if k = key then (k, v) :: rest else (k, w) :: setPair rest key v

/-- Parsed state of a `configparser.ConfigParser`: the special `DEFAULT`
section plus the named sections in file order. -/
structure Config where
  defaults : Pairs
  sections : List (String × Pairs)
deriving DecidableEq, Repr

/-- `config.has_section name` (the `DEFAULT` section is not a section). -/
def hasSection (cfg : Config) (name : String) : Bool :=
  cfg.sections.any (fun sp => sp.1 = name)

/-- Python `name in config`: true for `"DEFAULT"` and for every section. -/
def inConfig (cfg : Config) (name : String) : Bool :=
  name = "DEFAULT" || hasSection cfg name

/-- The pairs of the first section called `name` (empty if absent). -/
def sectionPairs (cfg : Config) (name : String) : Pairs :=
  ((cfg.sections.find? (fun sp => sp.1 = name)).map (fun sp => sp.2)).getD []

/-- `config[section].get(key)`: section lookup falling back to the
`DEFAULT` section, `None` when both miss (`configparser` fallback chain). -/
def getOpt (cfg : Config) (sec key : String) : Option String :=
  if sec = "DEFAULT" then lookupPairs cfg.defaults key
  else
    match lookupPairs (sectionPairs cfg sec) key with
    | some v => some v
    | none => lookupPairs cfg.defaults key

/-- `config[section] = {}` for a fresh name: appends an empty section. -/
def addSection (cfg : Config) (name : String) : Config :=
  { cfg with sections := cfg.sections ++ [(name, [])] }

/-- Set `key` to `v` in the first section called `name` (helper). -/
def updateSection : List (String × Pairs) → String → String → String → List (String × Pairs)
  | [], _, _, _ => []
  | (n, ps) :: rest, name, key, v =>
      if n = name then (n, setPair ps key v) :: rest
      else (n, ps) :: updateSection rest name key v

/-- `config[section][key] = v`: writes the `DEFAULT` pairs when the section
is `"DEFAULT"`, otherwise the named section. -/
def setOption (cfg : Config) (sec key v : String) : Config :=
  if sec = "DEFAULT" then { cfg with defaults := setPair cfg.defaults key v }
  else { cfg with sections := updateSection cfg.sections sec key v }

/-- `read_profile_credentials(profile)` from cli.py lines 99-123: a missing
file yields `(None, None)`; otherwise the profile section is read, falling
back to the `DEFAULT` section when the profile is absent. -/
def read_profile_credentials (file : Option Config) (profile : String) :
    Option String × Option String :=
  match file with
  | none => (none, none)
  | some config =>
    let sec := if inConfig config profile then profile else "DEFAULT"
    if inConfig config sec then
      (getOpt config sec "aws_access_key_id", getOpt config sec "aws_secret_access_key")
    else (none, none)

/-- The configuration written by `update_credentials_file(profile, id, secret)`
(cli.py lines 197-217): read the existing file (empty when absent), create the
profile section if missing, set both credential keys, rewrite the file. -/
def updatedConfig (file : Option Config) (profile akid sak : String) : Config :=
  let config := file.getD ⟨[], []⟩
  let sec := profile
  let config := if inConfig config sec then config else addSection config sec
  let config := setOption config sec "aws_access_key_id" akid
  setOption config sec "aws_secret_access_key" sak

/-- Filesystem side effects of `update_credentials_file`. -/
inductive FsEvent where
  | copyBackup (content : Config)
  | makeDirs
  | writeFile (content : Config)
deriving DecidableEq, Repr

/-- Ordered filesystem effects of `update_credentials_file` (cli.py lines
187-217): `shutil.copy2` to the `.backup` sibling only when the store file
exists, then `os.makedirs`, then the rewrite of the store file. -/
def update_credentials_file_events (file : Option Config) (profile akid sak : String) :
    List FsEvent :=
  (match file with
   | some c => [FsEvent.copyBackup c]
   | none => []) ++
  [FsEvent.makeDirs, FsEvent.writeFile (updatedConfig file profile akid sak)]

/-- The backup-creation events of a filesystem trace. -/
def backupEvents (tr : List FsEvent) : List FsEvent :=
  tr.filter (fun e => match e with
    | FsEvent.copyBackup _ => true
    | _ => false)

/-- The first section called `name`, if any. -/
def findSection (cfg : Config) (name : String) : Option Pairs :=
  (cfg.sections.find? (fun sp => sp.1 = name)).map (fun sp => sp.2)

/-! ### Textual layer: the INI fragment `configparser` reads and writes

`update_credentials_file` re-reads the store file with `configparser` and
serialises the parsed state back with `config.write`, so the rewritten text
is the serialisation of the parsed structure, not the original bytes.  The
fragment modelled here: `[name]` headers, `key = value` lines (keys stripped
and lower-cased by `optionxform`, values stripped), blank lines, and `;`/`#`
comment lines (dropped by the parser). -/

/-- Strip leading and trailing whitespace (Python `str.strip` on ASCII). -/
def stripChars (cs : List Char) : List Char :=
  ((cs.dropWhile Char.isWhitespace).reverse.dropWhile Char.isWhitespace).reverse

/-- Lower-case every character (Python `str.lower` on ASCII). -/
def lowerChars (cs : List Char) : List Char :=
  cs.map Char.toLower

/-- Split a character stream at `'\n'` (helper; `acc` holds the current
line reversed). -/
def splitLinesAux : List Char → List Char → List (List Char)
  | [], acc => [acc.reverse]
  | c :: rest, acc =>
      if c = '\n' then acc.reverse :: splitLinesAux rest []
      else splitLinesAux rest (c :: acc)

/-- The lines of a file's text. -/
def splitLines (s : String) : List (List Char) :=
  splitLinesAux s.toList []

/-- One parsed line of the INI fragment. -/
inductive IniLine where
  | header (name : String)
  | pair (key value : String)
  | blank
deriving DecidableEq, Repr

/-- Classify one line the way `configparser` does on this fragment:
bracketed headers, `key=value` bindings (key stripped and lower-cased,
value stripped), and blank/comment lines. -/
def classifyLine (line : List Char) : IniLine :=
  let cs := stripChars line
  match cs with
  | [] => IniLine.blank
  | c :: rest =>
    if c = ';' ∨ c = '#' then IniLine.blank
    else if c = '[' ∧ rest.getLast? = some ']' then
      IniLine.header ⟨rest.dropLast⟩
    else if cs.contains '=' then
      IniLine.pair ⟨lowerChars (stripChars (cs.takeWhile (fun ch => ch ≠ '=')))⟩
        ⟨stripChars ((cs.dropWhile (fun ch => ch ≠ '=')).drop 1)⟩
    else IniLine.blank

/-- Fold one parsed line into the configuration being built; `cur` is the
name of the current section (`none` before any header). -/
def parseStep (acc : Config × Option String) (l : IniLine) : Config × Option String :=
  match l, acc with
  | IniLine.header name, (cfg, _) =>
      if name = "DEFAULT" then (cfg, some "DEFAULT")
      else if hasSection cfg name then (cfg, some name)
      else (addSection cfg name, some name)
  | IniLine.pair k v, (cfg, some sec) => (setOption cfg sec k v, some sec)
  | IniLine.pair _ _, (cfg, none) => (cfg, none)
  | IniLine.blank, st => st

/-- Parse a store file's text into its `configparser` structure. -/
def parseConfig (text : String) : Config :=
  (((splitLines text).map classifyLine).foldl parseStep (⟨[], []⟩, none)).1

/-- Serialise one section's pairs as `config.write` does (`key = value`). -/
def writePairs : Pairs → String
  | [] => ""
  | (k, v) :: rest => k ++ " = " ++ v ++ "\n" ++ writePairs rest

/-- Serialise one section: header, pairs, then one blank separator line. -/
def writeSectionStr (name : String) (ps : Pairs) : String :=
  "[" ++ name ++ "]\n" ++ writePairs ps ++ "\n"

/-- `config.write`: `DEFAULT` first when non-empty, then every section. -/
def writeConfig (cfg : Config) : String :=
  (if cfg.defaults = [] then "" else writeSectionStr "DEFAULT" cfg.defaults) ++
  (cfg.sections.map (fun sp => writeSectionStr sp.1 sp.2)).foldl (fun a b => a ++ b) ""

/-- The store file's text after `update_credentials_file` rewrites it:
parse the existing text, apply the binding update, serialise. -/
def update_credentials_file_text (text : String) (profile akid sak : String) : String :=
  writeConfig (updatedConfig (some (parseConfig text)) profile akid sak)

/-! ### RetirementSelector: `get_recommended_key_to_delete` -/

/-- IAM access-key `Status` field. -/
inductive KeyStatus where
  | active
  | inactive
deriving DecidableEq, Repr

/-- One entry of `list_access_keys` (`AccessKeyMetadata`); `createDate`
is the creation timestamp as a number (datetimes compare chronologically). -/
structure AccessKey where
  accessKeyId : String
  status : KeyStatus
  createDate : Nat
deriving DecidableEq, Repr

/-- Python `min(x :: xs, key=lambda k: k['CreateDate'])`: fold keeping the
current best and replacing it only on a strictly smaller key, so the first
element attaining the minimum wins ties. -/
def foldMinByDate (x : AccessKey) (xs : List AccessKey) : AccessKey :=
  xs.foldl (fun best k => if k.createDate < best.createDate then k else best) x

/-- Python `min(l, key=...)` lifted to possibly-empty lists. -/
def pythonMinByDate : List AccessKey → Option AccessKey
  | [] => none
  | x :: xs => some (foldMinByDate x xs)

/-- `get_recommended_key_to_delete` (cli.py lines 294-307): the oldest
inactive key when any key is inactive, else the oldest active key, else
the first key of the list (`None` when there are no keys at all). -/
def get_recommended_key_to_delete (access_keys : List AccessKey) : Option AccessKey :=
  let inactive_keys := access_keys.filter (fun k => k.status = KeyStatus.inactive)
  if inactive_keys ≠ [] then pythonMinByDate inactive_keys
  else
    let active_keys_list := access_keys.filter (fun k => k.status = KeyStatus.active)
    if active_keys_list ≠ [] then pythonMinByDate active_keys_list
    else access_keys.head?

/-- Reason attached to a recommendation (cli.py line 313); `noRec` when
there is no key to retire. -/
inductive RetireReason where
  | inactiveKey
  | oldest
  | noRec
deriving DecidableEq, Repr

/-- The spec's `RotationPlan`: recommended record plus reason. -/
structure RotationPlan where
  record : Option AccessKey
  reason : RetireReason
deriving DecidableEq, Repr

/-- The spec's `RetirementSelector.recommend(records, currently_bound_id)`:
the source selector (cli.py lines 294-313) computes the recommendation from
`access_keys` alone and never reads `current_access_key`. -/
def recommend (records : List AccessKey) (currently_bound_id : Option String) :
    RotationPlan :=
  match get_recommended_key_to_delete records with
  | some r =>
      ⟨some r, if r.status = KeyStatus.inactive then RetireReason.inactiveKey
               else RetireReason.oldest⟩
  | none => ⟨none, RetireReason.noRec⟩

/-! ### Interactive confirmation prompts

Each prompt reads a line and applies `.strip().lower()` before testing it
against an explicit list of affirmative answers. -/

/-- `response.strip().lower()` as a character list (ASCII fragment). -/
def normResponse (s : String) : List Char :=
  lowerChars (stripChars s.toList)

/-- Profile-use prompt, cli.py line 80-81: `in ['', 'y', 'yes']`. -/
def useOnlyProfileYes (s : String) : Bool :=
  normResponse s ∈ [([] : List Char), ['y'], ['y', 'e', 's']]

/-- Default-profile-creation prompt, cli.py line 72-73: `in ['y', 'yes']`. -/
def createDefaultYes (s : String) : Bool :=
  normResponse s ∈ [['y'], ['y', 'e', 's']]

/-- Recommended-retirement prompt, cli.py line 323-325: `in ['', 'y', 'yes']`. -/
def deleteRecommendedYes (s : String) : Bool :=
  normResponse s ∈ [([] : List Char), ['y'], ['y', 'e', 's']]

/-- Old-key cleanup prompt, cli.py line 385-386: `in ['', 'y', 'yes']`. -/
def cleanupYes (s : String) : Bool :=
  normResponse s ∈ [([] : List Char), ['y'], ['y', 'e', 's']]

/-! ### RotationOrchestrator: the side-effect trace of `main`

`mainTrace` records, in program order, the provider and store mutations of
one run of `main` (cli.py lines 226-398) on the success path, as a function
of the run's inputs.  Provider or store failures call `sys.exit`, which
truncates the trace; they introduce no additional events. -/

/-- Provider/store side effects of one run, in program order. -/
inductive Event where
  | capacityDelete (id : String)
  | createKey (id : String)
  | persistStore (profile akid secret : String)
  | cleanupPrompt (id : String)
  | cleanupDelete (id : String)
deriving DecidableEq, Repr

/-- Inputs that determine one run of `main` after profile selection:
the binding read from the store, the provider's key listing, the user's
prompt responses, and the provider-assigned new key. -/
structure RunInput where
  profile : String
  currentAccessKey : Option String
  accessKeys : List AccessKey
  deleteRecommendedResp : String
  manualKeyInput : String
  cleanupResp : String
  newKeyId : String
  newSecret : String
deriving Repr

/-- `key_to_delete` at the capacity step (cli.py lines 309-346): the
recommended key's id on an affirmative response, else the id the user
types (stripped); with no recommendation, the typed id. -/
def key_to_delete_choice (access_keys : List AccessKey) (delResp manualId : String) :
    String :=
  match get_recommended_key_to_delete access_keys with
  | some r =>
      if deleteRecommendedYes delResp then r.accessKeyId
      else ⟨stripChars manualId.toList⟩
  | none => ⟨stripChars manualId.toList⟩

/-- The id deleted (or chosen) at the capacity-enforcement step: `some`
exactly when the 2-key limit branch is entered (cli.py line 289). -/
def capacityChoice (inp : RunInput) : Option String :=
  if 2 ≤ inp.accessKeys.length then
    some (key_to_delete_choice inp.accessKeys inp.deleteRecommendedResp inp.manualKeyInput)
  else none

/-- The ids `list_access_keys` reports at the cleanup check (cli.py line
382): the initial listing minus any capacity-deleted key, plus the new key. -/
def remoteIdsAfter (inp : RunInput) (capDel : Option String) : List String :=
  ((match capDel with
    | some k => inp.accessKeys.filter (fun a => a.accessKeyId ≠ k)
    | none => inp.accessKeys : List AccessKey)).map
      (fun a => a.accessKeyId) ++ [inp.newKeyId]

/-- The cleanup step (cli.py lines 379-395): runs only when the old bound
key is truthy, differs from any capacity-deleted id, and still exists
remotely; the prompt is shown, and the key deleted on an affirmative
response. -/
def cleanupEvents (inp : RunInput) (capDel : Option String) : List Event :=
  match inp.currentAccessKey with
  | none => []
  | some c =>
    if c ≠ "" ∧ some c ≠ capDel ∧ c ∈ remoteIdsAfter inp capDel then
      Event.cleanupPrompt c ::
        (if cleanupYes inp.cleanupResp then [Event.cleanupDelete c] else [])
    else []

/-- Events from key creation onward (cli.py lines 360-395): create the new
key, persist it to the store, then the conditional cleanup. -/
def postCapacity (inp : RunInput) (capDel : Option String) : List Event :=
  Event.createKey inp.newKeyId ::
  Event.persistStore inp.profile inp.newKeyId inp.newSecret ::
  cleanupEvents inp capDel

/-- The full side-effect trace of one run of `main`: the capacity-step
deletion when at the 2-key limit (an empty chosen id exits the program,
cli.py line 353-355), then creation, persistence and cleanup. -/
def mainTrace (inp : RunInput) : List Event :=
  match capacityChoice inp with
  | some k => if k = "" then [] else Event.capacityDelete k :: postCapacity inp (some k)
  | none => postCapacity inp none

/-- `true` iff some remote deletion of `bound` occurs before the first
store-persistence event (or without any persistence at all). -/
def boundDeletedBeforePersist (bound : String) : List Event → Bool
  | [] => false
  | Event.persistStore _ _ _ :: _ => false
  | Event.capacityDelete k :: rest =>
      k = bound || boundDeletedBeforePersist bound rest
  | Event.cleanupDelete k :: rest =>
      k = bound || boundDeletedBeforePersist bound rest
  | _ :: rest => boundDeletedBeforePersist bound rest

/-- `true` iff a cleanup-step deletion occurs before the first
store-persistence event (or without any persistence at all). -/
def cleanupDeleteBeforePersist : List Event → Bool
  | [] => false
  | Event.persistStore _ _ _ :: _ => false
  | Event.cleanupDelete _ :: _ => true
  | _ :: rest => cleanupDeleteBeforePersist rest

/-- `true` iff the trace contains any cleanup-step event (prompt or delete). -/
def hasCleanupEvent : List Event → Bool
  | [] => false
  | Event.cleanupPrompt _ :: _ => true
  | Event.cleanupDelete _ :: _ => true
  | _ :: rest => hasCleanupEvent rest

/-! ### Lemmas about the Python `min(..., key=...)` fold -/

theorem foldMinByDate_nil (x : AccessKey) : foldMinByDate x [] = x := rfl

theorem foldMinByDate_cons (x y : AccessKey) (ys : List AccessKey) :
    foldMinByDate x (y :: ys) =
      foldMinByDate (if y.createDate < x.createDate then y else x) ys := rfl

/-- The fold's result has a minimal `createDate` among all inputs. -/
theorem foldMinByDate_le (xs : List AccessKey) :
    ∀ x k, k ∈ x :: xs → (foldMinByDate x xs).createDate ≤ k.createDate := by
  induction xs with
  | nil =>
    intro x k hk
    have hx : k = x := by simpa using hk
    subst hx
    exact Nat.le_refl _
  | cons y ys ih =>
    intro x k hk
    rw [foldMinByDate_cons]
    have hx' : (if y.createDate < x.createDate then y else x).createDate ≤ x.createDate := by
      split <;> omega
    have hy' : (if y.createDate < x.createDate then y else x).createDate ≤ y.createDate := by
      split <;> omega
    have hres := ih (if y.createDate < x.createDate then y else x) _
      (List.mem_cons_self _ _)
    rcases List.mem_cons.mp hk with rfl | hk'
    · exact Nat.le_trans hres hx'
    · rcases List.mem_cons.mp hk' with rfl | hk''
      · exact Nat.le_trans hres hy'
      · exact ih _ _ (List.mem_cons_of_mem _ hk'')

/-- The fold's result is the first element attaining the minimum: the input
splits around the result, with every earlier element strictly younger
(larger `createDate` means later; strictly greater date here means the
earlier entries all miss the minimum). -/
theorem foldMinByDate_split (xs : List AccessKey) :
    ∀ x, ∃ pre post, x :: xs = pre ++ foldMinByDate x xs :: post ∧
      ∀ k ∈ pre, (foldMinByDate x xs).createDate < k.createDate := by
  induction xs with
  | nil => exact fun x => ⟨[], [], rfl, by simp⟩
  | cons y ys ih =>
    intro x
    by_cases hy : y.createDate < x.createDate
    · have hx' : foldMinByDate x (y :: ys) = foldMinByDate y ys := by
        rw [foldMinByDate_cons, if_pos hy]
      obtain ⟨pre, post, hsplit, hstrict⟩ := ih y
      refine ⟨x :: pre, post, ?_, ?_⟩
      · rw [hx', List.cons_append, ← hsplit]
      · intro k hk
        rw [hx']
        rcases List.mem_cons.mp hk with rfl | hk'
        · exact Nat.lt_of_le_of_lt (foldMinByDate_le ys y y (List.mem_cons_self _ _)) hy
        · exact hstrict k hk'
    · have hx' : foldMinByDate x (y :: ys) = foldMinByDate x ys := by
        rw [foldMinByDate_cons, if_neg hy]
      obtain ⟨pre, post, hsplit, hstrict⟩ := ih x
      cases pre with
      | nil =>
        have hhead : x = foldMinByDate x ys ∧ ys = post := by
          have := hsplit
          simp only [List.nil_append, List.cons.injEq] at this
          exact this
        refine ⟨[], y :: ys, ?_, by simp⟩
        rw [hx', ← hhead.1, List.nil_append]
      | cons p pre' =>
        have hinj : x = p ∧ ys = pre' ++ foldMinByDate x ys :: post := by
          have := hsplit
          simp only [List.cons_append, List.cons.injEq] at this
          exact this
        refine ⟨x :: y :: pre', post, ?_, ?_⟩
        · rw [hx']
          simp only [List.cons_append, List.cons.injEq, true_and]
          exact hinj.2
        · intro k hk
          have hxlt : (foldMinByDate x ys).createDate < x.createDate := by
            have := hstrict p (List.mem_cons_self _ _)
            rw [← hinj.1] at this
            exact this
          rw [hx']
          rcases List.mem_cons.mp hk with rfl | hk'
          · exact hxlt
          · rcases List.mem_cons.mp hk' with rfl | hk''
            · exact Nat.lt_of_lt_of_le hxlt (Nat.le_of_not_lt hy)
            · exact hstrict k (List.mem_cons_of_mem _ hk'')

/-- Full specification of Python `min` on a non-empty list: it returns the
first element attaining the minimal `createDate`. -/
theorem pythonMinByDate_spec (l : List AccessKey) (hl : l ≠ []) :
    ∃ r pre post, pythonMinByDate l = some r ∧ l = pre ++ r :: post ∧
      (∀ k ∈ l, r.createDate ≤ k.createDate) ∧
      ∀ k ∈ pre, r.createDate < k.createDate := by
  cases l with
  | nil => exact absurd rfl hl
  | cons x xs =>
    obtain ⟨pre, post, hsplit, hstrict⟩ := foldMinByDate_split xs x
    exact ⟨foldMinByDate x xs, pre, post, rfl, hsplit,
      foldMinByDate_le xs x, hstrict⟩

/-- Two inactive keys sharing the earliest creation date, listed with the
lexicographically larger id first. -/
def tieRecords : List AccessKey :=
  [⟨"B", KeyStatus.inactive, 0⟩, ⟨"A", KeyStatus.inactive, 0⟩]

/-- C1, counterexample: on two inactive records tied at the earliest
`created_at`, the selector returns the first-listed record (id `"B"`),
not the one with the lexicographically smallest id (`"A"` qualifies:
inactive, same earliest timestamp, and `"A" < "B"`). -/
theorem recommend_tie_not_lexicographic :
    2 ≤ tieRecords.length ∧
    (⟨"A", KeyStatus.inactive, 0⟩ : AccessKey) ∈ tieRecords ∧
    (∀ k ∈ tieRecords, k.status = KeyStatus.inactive ∧ k.createDate = 0) ∧
    "A".toList < "B".toList ∧
    (recommend tieRecords none).record = some ⟨"B", KeyStatus.inactive, 0⟩ := by
  decide

/-- C1 (amended): for every record set with at least 2 records of which at
least one is inactive, the selector returns an inactive record with the
earliest `created_at` among the inactive ones; when several inactive
records share that earliest timestamp, the one listed FIRST in the record
sequence is returned (Python `min` keeps the first minimum; the tie is not
broken by id order).  The returned plan carries reason `Inactive`. -/
theorem recommend_earliest_inactive_first_listed
    (records : List AccessKey) (b : Option String)
    (h2 : 2 ≤ records.length)
    (hin : ∃ k ∈ records, k.status = KeyStatus.inactive) :
    ∃ r pre post,
      recommend records b = ⟨some r, RetireReason.inactiveKey⟩ ∧
      r ∈ records ∧ r.status = KeyStatus.inactive ∧
      records.filter (fun k => k.status = KeyStatus.inactive) = pre ++ r :: post ∧
      (∀ k ∈ records, k.status = KeyStatus.inactive → r.createDate ≤ k.createDate) ∧
      ∀ k ∈ pre, r.createDate < k.createDate := by
  obtain ⟨k0, hk0mem, hk0st⟩ := hin
  have hne : records.filter (fun k => k.status = KeyStatus.inactive) ≠ [] := by
    intro h
    have hk0 : k0 ∈ records.filter (fun k => k.status = KeyStatus.inactive) :=
      List.mem_filter.mpr ⟨hk0mem, by simp [hk0st]⟩
    rw [h] at hk0
    exact absurd hk0 (List.not_mem_nil _)
  have hget : get_recommended_key_to_delete records
      = pythonMinByDate (records.filter (fun k => k.status = KeyStatus.inactive)) := by
    simp only [get_recommended_key_to_delete, if_pos hne]
  obtain ⟨r, pre, post, hmin, hsplit, hle, hstrict⟩ := pythonMinByDate_spec _ hne
  have hrmem : r ∈ records.filter (fun k => k.status = KeyStatus.inactive) :=
    hsplit ▸ List.mem_append.mpr (Or.inr (List.mem_cons_self _ _))
  have hrrec : r ∈ records := (List.mem_filter.mp hrmem).1
  have hrst : r.status = KeyStatus.inactive := by
    have h := (List.mem_filter.mp hrmem).2
    simpa using h
  refine ⟨r, pre, post, ?_, hrrec, hrst, hsplit, ?_, hstrict⟩
  · simp only [recommend, hget, hmin]
    rw [if_pos hrst]
  · intro k hkmem hkst
    exact hle k (List.mem_filter.mpr ⟨hkmem, by simp [hkst]⟩)

/-- A concrete 2-record set with one inactive record. -/
def inactiveWitnessRecords : List AccessKey :=
  [⟨"B", KeyStatus.inactive, 3⟩, ⟨"A", KeyStatus.active, 1⟩]

/-- Witness for `recommend_earliest_inactive_first_listed` at a concrete
record set. -/
theorem recommend_earliest_inactive_first_listed_witness :
    (2 ≤ inactiveWitnessRecords.length ∧
      ∃ k ∈ inactiveWitnessRecords, k.status = KeyStatus.inactive) ∧
    ∃ r pre post,
      recommend inactiveWitnessRecords none = ⟨some r, RetireReason.inactiveKey⟩ ∧
      r ∈ inactiveWitnessRecords ∧ r.status = KeyStatus.inactive ∧
      inactiveWitnessRecords.filter (fun k => k.status = KeyStatus.inactive)
        = pre ++ r :: post ∧
      (∀ k ∈ inactiveWitnessRecords,
        k.status = KeyStatus.inactive → r.createDate ≤ k.createDate) ∧
      ∀ k ∈ pre, r.createDate < k.createDate :=
  ⟨⟨by decide, by decide⟩,
    recommend_earliest_inactive_first_listed inactiveWitnessRecords none
      (by decide) (by decide)⟩

/-- C9, counterexample: on a singleton record set the selector function
returns that record with reason `Inactive`, not a `reason = None` plan. -/
theorem recommend_singleton_not_none :
    recommend [⟨"K", KeyStatus.inactive, 5⟩] none
      = ⟨some ⟨"K", KeyStatus.inactive, 5⟩, RetireReason.inactiveKey⟩ ∧
    RetireReason.inactiveKey ≠ RetireReason.noRec := by
  decide

/-- C9 (amended): on the empty record set the selector returns no record
and reason `None`; on a singleton set it returns that single record (the
orchestrator's `len(access_keys) >= 2` guard is what keeps it from being
invoked below capacity). -/
theorem recommend_empty_none_singleton_some :
    (∀ b, recommend [] b = ⟨none, RetireReason.noRec⟩) ∧
    ∀ r b, (recommend [r] b).record = some r := by
  refine ⟨fun b => rfl, fun r b => ?_⟩
  cases r with
  | mk id st d => cases st <;> rfl

/-- C10: the recommendation is computed from the record list alone; the
currently-bound id is never consulted, so any two bound ids (or none)
yield the same plan. -/
theorem recommend_independent_of_bound_id
    (records : List AccessKey) (b1 b2 : Option String) :
    recommend records b1 = recommend records b2 := rfl

/-! ### Lemmas about the store structure -/

theorem lookupPairs_setPair_self (ps : Pairs) (k v : String) :
    lookupPairs (setPair ps k v) k = some v := by
  induction ps with
  | nil => simp [setPair, lookupPairs]
  | cons p rest ih =>
    obtain ⟨q, w⟩ := p
    by_cases h : q = k
    · simp [setPair, lookupPairs, h]
    · simp [setPair, lookupPairs, h, ih]

theorem lookupPairs_setPair_other (ps : Pairs) (k v q : String) (h : k ≠ q) :
    lookupPairs (setPair ps k v) q = lookupPairs ps q := by
  induction ps with
  | nil =>
    simp only [setPair, lookupPairs]
    rw [if_neg h]
  | cons p rest ih =>
    obtain ⟨n, w⟩ := p
    by_cases hn : n = k
    · simp only [setPair, if_pos hn, lookupPairs]
      rw [if_neg (hn ▸ h), if_neg (hn ▸ h)]
    · simp only [setPair, if_neg hn, lookupPairs]
      by_cases hq : n = q
      · rw [if_pos hq, if_pos hq]
      · rw [if_neg hq, if_neg hq, ih]

theorem find?_updateSection_self (ss : List (String × Pairs)) (name k v : String) :
    (updateSection ss name k v).find? (fun sp => sp.1 = name)
      = (ss.find? (fun sp => sp.1 = name)).map
          (fun sp => (sp.1, setPair sp.2 k v)) := by
  induction ss with
  | nil => rfl
  | cons p rest ih =>
    obtain ⟨n, ps⟩ := p
    by_cases h : n = name
    · simp [updateSection, if_pos h, List.find?_cons, h]
    · simp [updateSection, if_neg h, List.find?_cons, h, ih]

theorem find?_updateSection_other (ss : List (String × Pairs))
    (name k v q : String) (h : q ≠ name) :
    (updateSection ss name k v).find? (fun sp => sp.1 = q)
      = ss.find? (fun sp => sp.1 = q) := by
  induction ss with
  | nil => rfl
  | cons p rest ih =>
    obtain ⟨n, ps⟩ := p
    by_cases hn : n = name
    · have hq : ¬(n = q) := fun hh => h (hh ▸ hn.symm ▸ rfl)
      simp [updateSection, if_pos hn, List.find?_cons, hq]
    · have hstep : updateSection ((n, ps) :: rest) name k v
          = (n, ps) :: updateSection rest name k v := by
        simp [updateSection, hn]
      rw [hstep]
      by_cases hq : n = q
      · simp [List.find?_cons, hq]
      · simp [List.find?_cons, hq, ih]

theorem any_updateSection (ss : List (String × Pairs)) (name k v q : String) :
    (updateSection ss name k v).any (fun sp => sp.1 = q)
      = ss.any (fun sp => sp.1 = q) := by
  induction ss with
  | nil => rfl
  | cons p rest ih =>
    obtain ⟨n, ps⟩ := p
    by_cases hn : n = name
    · simp [updateSection, if_pos hn]
    · simp [updateSection, if_neg hn, ih]

theorem find?_append_sections (ss : List (String × Pairs)) (p q : String)
    (h : q ≠ p) :
    (ss ++ [(p, ([] : Pairs))]).find? (fun sp => sp.1 = q)
      = ss.find? (fun sp => sp.1 = q) := by
  induction ss with
  | nil =>
    have hq : ¬(p = q) := fun hh => h hh.symm
    simp [List.find?_cons, hq]
  | cons sp rest ih =>
    obtain ⟨n, ps⟩ := sp
    by_cases hq : n = q
    · simp [List.find?_cons, hq]
    · simp [List.find?_cons, hq, ih]

theorem find?_of_any (ss : List (String × Pairs)) (q : String)
    (h : ss.any (fun sp => sp.1 = q) = true) :
    ∃ sp, ss.find? (fun sp => sp.1 = q) = some sp ∧ sp.1 = q := by
  induction ss with
  | nil => simp at h
  | cons p rest ih =>
    obtain ⟨n, ps⟩ := p
    by_cases hq : n = q
    · exact ⟨(n, ps), by simp [List.find?_cons, hq], hq⟩
    · have hrest : rest.any (fun sp => sp.1 = q) = true := by
        simpa [hq] using h
      obtain ⟨sp, hfind, hsp⟩ := ih hrest
      exact ⟨sp, by simp [List.find?_cons, hq, hfind], hsp⟩

theorem setOption_defaults (cfg : Config) (sec k v : String) (h : sec ≠ "DEFAULT") :
    (setOption cfg sec k v).defaults = cfg.defaults := by
  simp [setOption, if_neg h]

theorem setOption_sections (cfg : Config) (sec k v : String) (h : sec ≠ "DEFAULT") :
    (setOption cfg sec k v).sections = updateSection cfg.sections sec k v := by
  simp [setOption, if_neg h]

theorem setOption_DEFAULT (cfg : Config) (k v : String) :
    setOption cfg "DEFAULT" k v = { cfg with defaults := setPair cfg.defaults k v } := by
  simp [setOption]

theorem updatedConfig_eq (cfg : Config) (p a s : String) :
    updatedConfig (some cfg) p a s =
      setOption
        (setOption (if inConfig cfg p then cfg else addSection cfg p)
          p "aws_access_key_id" a)
        p "aws_secret_access_key" s := rfl

theorem updatedConfig_defaults (cfg : Config) (p a s : String) (hp : p ≠ "DEFAULT") :
    (updatedConfig (some cfg) p a s).defaults = cfg.defaults := by
  rw [updatedConfig_eq, setOption_defaults _ _ _ _ hp, setOption_defaults _ _ _ _ hp]
  split <;> rfl

theorem updatedConfig_defaults_DEFAULT (cfg : Config) (a s : String) :
    (updatedConfig (some cfg) "DEFAULT" a s).defaults =
      setPair (setPair cfg.defaults "aws_access_key_id" a) "aws_secret_access_key" s := by
  have h1 : inConfig cfg "DEFAULT" = true := by simp [inConfig]
  rw [updatedConfig_eq, if_pos h1, setOption_DEFAULT, setOption_DEFAULT]

theorem updatedConfig_sections_DEFAULT (cfg : Config) (a s : String) :
    (updatedConfig (some cfg) "DEFAULT" a s).sections = cfg.sections := by
  have h1 : inConfig cfg "DEFAULT" = true := by simp [inConfig]
  rw [updatedConfig_eq, if_pos h1, setOption_DEFAULT, setOption_DEFAULT]

theorem sectionPairs_eq_findSection (cfg : Config) (n : String) :
    sectionPairs cfg n = (findSection cfg n).getD [] := rfl

/-- Frame at the parsed level: rewriting profile `p` leaves every other
section's stored pairs untouched. -/
theorem findSection_updatedConfig_other (cfg : Config) (p a s q : String)
    (h : q ≠ p) :
    findSection (updatedConfig (some cfg) p a s) q = findSection cfg q := by
  by_cases hp : p = "DEFAULT"
  · subst hp
    unfold findSection
    rw [updatedConfig_sections_DEFAULT]
  · unfold findSection
    rw [updatedConfig_eq, setOption_sections _ _ _ _ hp,
        find?_updateSection_other _ _ _ _ _ h, setOption_sections _ _ _ _ hp,
        find?_updateSection_other _ _ _ _ _ h]
    split
    · rfl
    · show ((cfg.sections ++ [(p, [])]).find? _).map _ = _
      rw [find?_append_sections cfg.sections p q h]

theorem hasSection_updatedConfig_self (cfg : Config) (p a s : String)
    (hp : p ≠ "DEFAULT") :
    hasSection (updatedConfig (some cfg) p a s) p = true := by
  unfold hasSection
  rw [updatedConfig_eq, setOption_sections _ _ _ _ hp, any_updateSection,
      setOption_sections _ _ _ _ hp, any_updateSection]
  by_cases hc : inConfig cfg p = true
  · rw [if_pos hc]
    have hs : hasSection cfg p = true := by
      simpa [inConfig, hp] using hc
    simpa [hasSection] using hs
  · rw [if_neg hc]
    show (cfg.sections ++ [(p, [])]).any _ = true
    simp

theorem hasSection_updatedConfig_other (cfg : Config) (p a s q : String)
    (hp : p ≠ "DEFAULT") (h : q ≠ p) :
    hasSection (updatedConfig (some cfg) p a s) q = hasSection cfg q := by
  unfold hasSection
  rw [updatedConfig_eq, setOption_sections _ _ _ _ hp, any_updateSection,
      setOption_sections _ _ _ _ hp, any_updateSection]
  split
  · rfl
  · show (cfg.sections ++ [(p, [])]).any _ = _
    have hq : ¬(p = q) := fun hh => h hh.symm
    simp [hq, hasSection]

theorem getOpt_updatedConfig_self (cfg : Config) (p a s : String) :
    getOpt (updatedConfig (some cfg) p a s) p "aws_access_key_id" = some a ∧
    getOpt (updatedConfig (some cfg) p a s) p "aws_secret_access_key" = some s := by
  have hks : ("aws_secret_access_key" : String) ≠ "aws_access_key_id" := by decide
  by_cases hp : p = "DEFAULT"
  · subst hp
    unfold getOpt
    rw [if_pos rfl, if_pos rfl, updatedConfig_defaults_DEFAULT]
    constructor
    · rw [lookupPairs_setPair_other _ _ _ _ hks, lookupPairs_setPair_self]
    · rw [lookupPairs_setPair_self]
  · have hsec : hasSection
        (if inConfig cfg p then cfg else addSection cfg p) p = true := by
      by_cases hc : inConfig cfg p = true
      · rw [if_pos hc]
        simpa [inConfig, hp] using hc
      · rw [if_neg hc]
        simp [hasSection, addSection]
    obtain ⟨sp, hfind, hspq⟩ := find?_of_any _ p hsec
    have hpairs : sectionPairs (updatedConfig (some cfg) p a s) p =
        setPair (setPair sp.2 "aws_access_key_id" a) "aws_secret_access_key" s := by
      rw [sectionPairs_eq_findSection]
      unfold findSection
      rw [updatedConfig_eq, setOption_sections _ _ _ _ hp, find?_updateSection_self,
          setOption_sections _ _ _ _ hp, find?_updateSection_self, hfind]
      rfl
    unfold getOpt
    rw [if_neg hp, if_neg hp, hpairs, lookupPairs_setPair_self,
        lookupPairs_setPair_other _ _ _ _ hks, lookupPairs_setPair_self]
    exact ⟨rfl, rfl⟩

/-- Round trip: after `update_credentials_file(p, a, s)` the profile `p`
reads back exactly `(a, s)`. -/
theorem read_updated_self (cfg : Config) (p a s : String) :
    read_profile_credentials (some (updatedConfig (some cfg) p a s)) p
      = (some a, some s) := by
  have hin : inConfig (updatedConfig (some cfg) p a s) p = true := by
    by_cases hp : p = "DEFAULT"
    · simp [inConfig, hp]
    · simp [inConfig, hasSection_updatedConfig_self cfg p a s hp]
  obtain ⟨h1, h2⟩ := getOpt_updatedConfig_self cfg p a s
  simp [read_profile_credentials, hin, h1, h2]

/-- Frame: rewriting profile `p` (not the `DEFAULT` section) leaves every
other existing profile's binding as read back from the store unchanged. -/
theorem read_updated_frame (cfg : Config) (p a s q : String)
    (hp : p ≠ "DEFAULT") (hq : q ≠ p) (hqs : hasSection cfg q = true) :
    read_profile_credentials (some (updatedConfig (some cfg) p a s)) q
      = read_profile_credentials (some cfg) q := by
  have hd := updatedConfig_defaults cfg p a s hp
  by_cases hqd : q = "DEFAULT"
  · subst hqd
    have hin1 : inConfig (updatedConfig (some cfg) p a s) "DEFAULT" = true := by
      simp [inConfig]
    have hin2 : inConfig cfg "DEFAULT" = true := by simp [inConfig]
    simp [read_profile_credentials, hin1, hin2, getOpt, hd]
  · have hpre : inConfig cfg q = true := by simp [inConfig, hqs]
    have hpost : inConfig (updatedConfig (some cfg) p a s) q = true := by
      simp [inConfig, hasSection_updatedConfig_other cfg p a s q hp hq, hqs]
    have hgo : ∀ key, getOpt (updatedConfig (some cfg) p a s) q key
        = getOpt cfg q key := by
      intro key
      unfold getOpt
      rw [if_neg hqd, if_neg hqd, sectionPairs_eq_findSection,
          sectionPairs_eq_findSection, findSection_updatedConfig_other cfg p a s q hq,
          hd]
    simp [read_profile_credentials, hpre, hpost, hgo]

/-- A store whose section `q` has no credential keys of its own. -/
def bareQStore : Config := ⟨[], [("q", [])]⟩

/-- C4, counterexample: writing the binding of the `DEFAULT` section
changes the binding read back for the other, pre-existing profile `q`
(whose missing fields inherit the new `DEFAULT` values), so the write is
not frame-preserving for every profile name. -/
theorem write_DEFAULT_changes_other_binding :
    hasSection bareQStore "q" = true ∧
    read_profile_credentials (some bareQStore) "q" = (none, none) ∧
    read_profile_credentials
        (some (updatedConfig (some bareQStore) "DEFAULT" "A" "B")) "q"
      = (some "A", some "B") := by
  decide

/-- C4 (amended): `writeBinding(p, A, B)` followed by `readBinding(p)`
returns exactly `(A, B)` for every profile name; and for every profile
name `p` other than the `DEFAULT` section, the bindings read back for all
other profiles present before the write are unchanged.  (Writing the
`DEFAULT` section itself can change what profiles with missing fields
read back, via `configparser` default fallback.) -/
theorem write_read_roundtrip_and_frame :
    (∀ file p a s,
      read_profile_credentials (some (updatedConfig file p a s)) p = (some a, some s)) ∧
    (∀ cfg p a s q, p ≠ "DEFAULT" → q ≠ p → hasSection cfg q = true →
      read_profile_credentials (some (updatedConfig (some cfg) p a s)) q
        = read_profile_credentials (some cfg) q) := by
  constructor
  · intro file p a s
    cases file with
    | none => exact read_updated_self ⟨[], []⟩ p a s
    | some cfg => exact read_updated_self cfg p a s
  · intro cfg p a s q hp hq hqs
    exact read_updated_frame cfg p a s q hp hq hqs

/-- A store with one other profile holding explicit credentials. -/
def otherProfileStore : Config :=
  ⟨[], [("other", [("aws_access_key_id", "OLD"), ("aws_secret_access_key", "OLDS")])]⟩

/-- Witness for `write_read_roundtrip_and_frame` at concrete inputs. -/
theorem write_read_roundtrip_and_frame_witness :
    (("work" : String) ≠ "DEFAULT" ∧ ("other" : String) ≠ "work" ∧
      hasSection otherProfileStore "other" = true) ∧
    read_profile_credentials
        (some (updatedConfig (some otherProfileStore) "work" "NEW" "NEWS")) "work"
      = (some "NEW", some "NEWS") ∧
    read_profile_credentials
        (some (updatedConfig (some otherProfileStore) "work" "NEW" "NEWS")) "other"
      = read_profile_credentials (some otherProfileStore) "other" :=
  ⟨⟨by decide, by decide, by decide⟩,
    write_read_roundtrip_and_frame.1 (some otherProfileStore) "work" "NEW" "NEWS",
    write_read_roundtrip_and_frame.2 otherProfileStore "work" "NEW" "NEWS" "other"
      (by decide) (by decide) (by decide)⟩

/-- C5, counterexample: the rewrite is not verbatim.  The pre-write file
holds the unknown key line `X=1` in section `[other]`; after
`update_credentials_file` rewrites the store, no line of the file carries
that text (the key was re-serialised as `x = 1`). -/
theorem rewrite_not_verbatim :
    ("X=1".toList ∈ splitLines "[other]\nX=1\n") ∧
    "X=1".toList ∉
      splitLines (update_credentials_file_text "[other]\nX=1\n" "default" "AKIA" "S") := by
  decide

/-- C5 (amended): a successful rewrite preserves every section other than
the written profile at the parsed level: its full list of (case-normalised)
keys and values is unchanged.  Comments, key case and spacing are not
preserved textually. -/
theorem rewrite_preserves_other_sections_parsed
    (cfg : Config) (p a s q : String) (h : q ≠ p) :
    findSection (updatedConfig (some cfg) p a s) q = findSection cfg q :=
  findSection_updatedConfig_other cfg p a s q h

/-- Witness for `rewrite_preserves_other_sections_parsed`. -/
theorem rewrite_preserves_other_sections_parsed_witness :
    ("other" : String) ≠ "work" ∧
    findSection (updatedConfig (some otherProfileStore) "work" "NEW" "NEWS") "other"
      = findSection otherProfileStore "other" :=
  ⟨by decide,
    rewrite_preserves_other_sections_parsed otherProfileStore "work" "NEW" "NEWS" "other"
      (by decide)⟩

/-- C6, counterexample: when the store file does not exist, the write
succeeds (the store file is created) but no backup event occurs at all. -/
theorem no_backup_when_store_absent :
    backupEvents (update_credentials_file_events none "default" "AKIA" "S") = [] ∧
    update_credentials_file_events none "default" "AKIA" "S"
      = [FsEvent.makeDirs,
         FsEvent.writeFile (updatedConfig none "default" "AKIA" "S")] := by
  decide

/-- C6 (amended): whenever the store file exists before the write, the
very first effect is the backup copy holding the pre-write content, and
the rewrite of the store happens strictly after it; when the store file
does not previously exist, the write proceeds with no backup event. -/
theorem backup_first_when_store_exists (cfg : Config) (p a s : String) :
    (∃ rest, update_credentials_file_events (some cfg) p a s
        = FsEvent.copyBackup cfg :: rest ∧
      FsEvent.writeFile (updatedConfig (some cfg) p a s) ∈ rest) ∧
    backupEvents (update_credentials_file_events none p a s) = [] := by
  refine ⟨⟨[FsEvent.makeDirs, FsEvent.writeFile (updatedConfig (some cfg) p a s)],
    rfl, ?_⟩, rfl⟩
  simp

/-- C8, counterexample: reading a profile that is absent from the store
does not return `(none, none)` when the `DEFAULT` section carries a
credential key — the read falls back to the `DEFAULT` values. -/
theorem read_missing_profile_falls_back :
    hasSection (⟨[("aws_access_key_id", "XDEF")], []⟩ : Config) "prod" = false ∧
    read_profile_credentials (some ⟨[("aws_access_key_id", "XDEF")], []⟩) "prod"
      = (some "XDEF", none) ∧
    ((some "XDEF", none) : Option String × Option String) ≠ (none, none) := by
  decide

/-- C8 (amended): `readBinding` never errors (it is total): a missing file
reads as `(none, none)`; a profile absent from the store reads the
`DEFAULT` section's values (each `none` when `DEFAULT` lacks it too); and
a present profile missing the access-id field reads the `DEFAULT` value
for that field (again `none` when absent). -/
theorem read_binding_fallback_no_error :
    (∀ p, read_profile_credentials none p = (none, none)) ∧
    (∀ cfg : Config, ∀ p, hasSection cfg p = false →
      read_profile_credentials (some cfg) p
        = (lookupPairs cfg.defaults "aws_access_key_id",
           lookupPairs cfg.defaults "aws_secret_access_key")) ∧
    (∀ cfg : Config, ∀ p, hasSection cfg p = true → p ≠ "DEFAULT" →
      lookupPairs (sectionPairs cfg p) "aws_access_key_id" = none →
      (read_profile_credentials (some cfg) p).1
        = lookupPairs cfg.defaults "aws_access_key_id") := by
  refine ⟨fun p => rfl, ?_, ?_⟩
  · intro cfg p h
    by_cases hp : p = "DEFAULT"
    · subst hp
      have hin : inConfig cfg "DEFAULT" = true := by simp [inConfig]
      simp [read_profile_credentials, hin, getOpt]
    · have hin : inConfig cfg p = false := by simp [inConfig, hp, h]
      have hind : inConfig cfg "DEFAULT" = true := by simp [inConfig]
      simp [read_profile_credentials, hin, hind, getOpt]
  · intro cfg p h hp hnone
    have hin : inConfig cfg p = true := by simp [inConfig, h]
    simp [read_profile_credentials, hin, getOpt, if_neg hp, hnone]

/-- Witness for `read_binding_fallback_no_error` at concrete stores. -/
theorem read_binding_fallback_no_error_witness :
    (hasSection (⟨[], []⟩ : Config) "prod" = false ∧
      read_profile_credentials (some (⟨[], []⟩ : Config)) "prod" = (none, none)) ∧
    (hasSection bareQStore "q" = true ∧ ("q" : String) ≠ "DEFAULT" ∧
      lookupPairs (sectionPairs bareQStore "q") "aws_access_key_id" = none ∧
      (read_profile_credentials (some bareQStore) "q").1 = none) :=
  ⟨⟨by decide, read_binding_fallback_no_error.2.1 ⟨[], []⟩ "prod" (by decide)⟩,
    ⟨by decide, by decide, by decide,
      read_binding_fallback_no_error.2.2 bareQStore "q" (by decide) (by decide)
        (by decide)⟩⟩

/-! ### Lemmas about the orchestrator trace -/

theorem capacityDelete_not_mem_cleanupEvents (inp : RunInput) (cd : Option String)
    (c : String) : Event.capacityDelete c ∉ cleanupEvents inp cd := by
  cases h : inp.currentAccessKey with
  | none => simp [cleanupEvents, h]
  | some c' =>
    simp only [cleanupEvents, h]
    split
    · split <;> simp
    · simp

theorem mainTrace_none (inp : RunInput) (h : capacityChoice inp = none) :
    mainTrace inp = postCapacity inp none := by
  unfold mainTrace
  rw [h]

theorem mainTrace_some (inp : RunInput) (k : String)
    (h : capacityChoice inp = some k) :
    mainTrace inp =
      if k = "" then [] else Event.capacityDelete k :: postCapacity inp (some k) := by
  unfold mainTrace
  rw [h]

theorem capacityDelete_not_mem_postCapacity (inp : RunInput) (cd : Option String)
    (c : String) : Event.capacityDelete c ∉ postCapacity inp cd := by
  unfold postCapacity
  intro h
  rcases List.mem_cons.mp h with heq | h'
  · exact Event.noConfusion heq
  · rcases List.mem_cons.mp h' with heq | h''
    · exact Event.noConfusion heq
    · exact capacityDelete_not_mem_cleanupEvents inp cd c h''

/-- A run where the bound key is retired at the capacity step: two active
keys, the bound one oldest, recommendation confirmed with empty input. -/
def boundCapacityRun : RunInput :=
  { profile := "default", currentAccessKey := some "K1"
    accessKeys := [⟨"K1", KeyStatus.active, 0⟩, ⟨"K2", KeyStatus.active, 1⟩]
    deleteRecommendedResp := "", manualKeyInput := "", cleanupResp := ""
    newKeyId := "K3", newSecret := "S3" }

/-- C2, counterexample: in the run `boundCapacityRun` the record bound to
the profile at the start (`K1`, the oldest active key, hence the
capacity-step recommendation) is deleted remotely BEFORE the new record is
created and persisted — the trace deletes `K1` first. -/
theorem capacity_delete_of_bound_before_persist :
    boundCapacityRun.currentAccessKey = some "K1" ∧
    mainTrace boundCapacityRun
      = [Event.capacityDelete "K1", Event.createKey "K3",
         Event.persistStore "default" "K3" "S3"] ∧
    boundDeletedBeforePersist "K1" (mainTrace boundCapacityRun) = true := by
  decide

/-- C2 (amended): the CLEANUP-step deletion of the previously-bound record
never precedes the creation and persistence of the new record, in any run;
the capacity-enforcement step, however, may delete the previously-bound
record before creation when that record is the one chosen for retirement. -/
theorem cleanup_delete_never_before_persist (inp : RunInput) :
    cleanupDeleteBeforePersist (mainTrace inp) = false := by
  unfold mainTrace
  cases hc : capacityChoice inp with
  | none => simp [postCapacity, cleanupDeleteBeforePersist]
  | some k =>
    by_cases hk : k = ""
    · simp [hk, cleanupDeleteBeforePersist]
    · simp [hk, postCapacity, cleanupDeleteBeforePersist]

/-- When the capacity step already deleted the bound id, the cleanup
condition `current_access_key != key_to_delete` is false and no cleanup
events are produced. -/
theorem cleanupEvents_self_skip (inp : RunInput) (c : String)
    (h2 : inp.currentAccessKey = some c) :
    cleanupEvents inp (some c) = [] := by
  have hfalse : ¬(c ≠ "" ∧ some c ≠ some c ∧ c ∈ remoteIdsAfter inp (some c)) :=
    fun h => h.2.1 rfl
  simp [cleanupEvents, h2, hfalse]

/-- C3: when the capacity-enforcement step deleted a record whose id equals
the previously-bound record's id, the cleanup step is skipped entirely —
the trace contains neither a cleanup prompt nor a second deletion. -/
theorem cleanup_skipped_when_capacity_deleted_bound (inp : RunInput) (c : String)
    (h1 : Event.capacityDelete c ∈ mainTrace inp)
    (h2 : inp.currentAccessKey = some c) :
    hasCleanupEvent (mainTrace inp) = false := by
  cases hc : capacityChoice inp with
  | none =>
    rw [mainTrace_none inp hc] at h1
    exact absurd h1 (capacityDelete_not_mem_postCapacity inp none c)
  | some k =>
    rw [mainTrace_some inp k hc] at h1 ⊢
    by_cases hk : k = ""
    · rw [if_pos hk] at h1
      exact absurd h1 (List.not_mem_nil _)
    · rw [if_neg hk] at h1 ⊢
      rcases List.mem_cons.mp h1 with heq | hmem
      · have hck : c = k := by injection heq
        subst hck
        rw [show postCapacity inp (some c)
            = Event.createKey inp.newKeyId ::
              Event.persistStore inp.profile inp.newKeyId inp.newSecret ::
              cleanupEvents inp (some c) from rfl,
          cleanupEvents_self_skip inp c h2]
        rfl
      · exact absurd hmem (capacityDelete_not_mem_postCapacity inp (some k) c)

/-- A run at capacity whose recommended retirement (the inactive key) is
exactly the bound key, confirmed with empty input. -/
def boundInactiveRun : RunInput :=
  { profile := "default", currentAccessKey := some "K1"
    accessKeys := [⟨"K1", KeyStatus.inactive, 0⟩, ⟨"K2", KeyStatus.active, 1⟩]
    deleteRecommendedResp := "", manualKeyInput := "", cleanupResp := ""
    newKeyId := "K3", newSecret := "S3" }

/-- Witness for `cleanup_skipped_when_capacity_deleted_bound`. -/
theorem cleanup_skipped_when_capacity_deleted_bound_witness :
    (Event.capacityDelete "K1" ∈ mainTrace boundInactiveRun ∧
      boundInactiveRun.currentAccessKey = some "K1") ∧
    hasCleanupEvent (mainTrace boundInactiveRun) = false :=
  ⟨⟨by decide, rfl⟩,
    cleanup_skipped_when_capacity_deleted_bound boundInactiveRun "K1"
      (by decide) rfl⟩

/-- C7, counterexample: the default-profile-creation prompt does NOT treat
empty input as "yes" — an empty response takes the negative branch
(`sys.exit(1)`), its prompt text even reads `(y/N)`. -/
theorem create_default_prompt_empty_not_yes :
    createDefaultYes "" = false := by
  decide

/-- C7 (amended): of the interactive confirmations, the profile-use,
recommended-retirement and cleanup prompts treat empty (all-whitespace)
input as "yes", but the default-profile-creation prompt treats it as "no". -/
theorem prompt_empty_defaults (s : String) (h : normResponse s = []) :
    useOnlyProfileYes s = true ∧ deleteRecommendedYes s = true ∧
    cleanupYes s = true ∧ createDefaultYes s = false := by
  simp [useOnlyProfileYes, deleteRecommendedYes, cleanupYes, createDefaultYes, h]

/-- Witness for `prompt_empty_defaults` at the empty response. -/
theorem prompt_empty_defaults_witness :
    normResponse "" = [] ∧
    (useOnlyProfileYes "" = true ∧ deleteRecommendedYes "" = true ∧
      cleanupYes "" = true ∧ createDefaultYes "" = false) :=
  ⟨by decide, prompt_empty_defaults "" (by decide)⟩
